import Mathlib

/-!
Verification of the Hybrid Retrieval and Indexing Engine
(`backend/app/agent/retrieval/`): tokenizer, BM25 keyword index service and
store, dual-store index manager, and RRF hybrid retriever.

Conventions of the shallow embedding:
* Python floats are modelled as rationals (`ℚ`); all the score arithmetic in
  the source is exact in this model.
* The external `jieba.cut` word segmenter is an opaque parameter
  `jieba : String → List String`; the external `rank_bm25.BM25Okapi.get_scores`
  scoring function is an opaque parameter
  `scoreFn : List (List String) → List String → List ℚ`.
* Python exceptions are modelled with `Except String`; code that catches an
  exception is modelled by the corresponding branch.
* The external stores (ChromaDB collection, pickle files on disk) are
  modelled as explicit state threaded through the operations.
-/

/-! ## Tokenizer (`tokenizer.py`) -/

/-- Python `string.punctuation` (the 32 ASCII punctuation characters). -/
def pythonPunctuation : List Char :=
  ['!', '"', '#', '$', '%', '&', Char.ofNat 39, '(', ')', '*', '+', ',', '-', '.', '/',
   ':', ';', '<', '=', '>', '?', '@', '[', Char.ofNat 92, ']', '^', '_', Char.ofNat 96,
   Char.ofNat 123, '|', Char.ofNat 125, '~']

/-- Chinese punctuation characters to filter out (`CHINESE_PUNCTUATION`,
tokenizer.py line 31).  In the Python source the literal is two adjacent
single-quoted strings, so the set contains the ASCII double quote and no
ASCII apostrophe. -/
def CHINESE_PUNCTUATION : List Char :=
  ['，', '。', '！', '？', '、', '；', '：', '"', '（', '）', '【', '】', '《', '》',
   '〈', '〉', '「', '」', '『', '』', '…', '—', '～', '·']

/-- CJK Unicode ranges (characters only, not punctuation) — `CJK_RANGES`. -/
def CJK_RANGES : List (Nat × Nat) :=
  [(0x4E00, 0x9FFF), (0x3400, 0x4DBF), (0x20000, 0x2A6DF), (0x2A700, 0x2B73F),
   (0x2B740, 0x2B81F), (0x2B820, 0x2CEAF), (0xF900, 0xFAFF), (0x2F800, 0x2FA1F)]

/-- `_is_cjk_char`: check if a character is a CJK character. -/
def is_cjk_char (c : Char) : Bool :=
  CJK_RANGES.any (fun r => decide (r.1 ≤ c.toNat) && decide (c.toNat ≤ r.2))

/-- `_calculate_cjk_ratio`: the fraction of CJK characters among the
characters that are neither whitespace nor ASCII punctuation.
The Python `c.strip()` test on a single character is modelled by
`Char.isWhitespace`. -/
def calculate_cjk_fraction (text : String) : ℚ :=
  let chars := text.data.filter (fun c => !c.isWhitespace && !pythonPunctuation.contains c)
  if chars.isEmpty then 0
  else (chars.countP (fun c => is_cjk_char c) : ℚ) / (chars.length : ℚ)

/-- `CJK_RATIO_THRESHOLD = 0.3`. -/
def CJK_RATIO_THRESHOLD : ℚ := 3 / 10

/-- `is_chinese_text`: CJK character fraction meets the threshold. -/
def is_chinese_text (text : String) : Bool :=
  decide (CJK_RATIO_THRESHOLD ≤ calculate_cjk_fraction text)

/-- `_is_punctuation`: the token consists purely of punctuation (English or
Chinese) and whitespace. -/
def is_punctuation_token (t : String) : Bool :=
  t.data.all (fun c => pythonPunctuation.contains c || CHINESE_PUNCTUATION.contains c
    || c.isWhitespace)

/-- `_tokenize_chinese`: run jieba over the text, drop empty/whitespace and
punctuation tokens, strip and lowercase the rest. -/
def tokenize_chinese (jieba : String → List String) (text : String) : List String :=
  ((jieba text).filter (fun t => !t.trim.isEmpty && !is_punctuation_token t)).map
    (fun t => t.trim.toLower)

/-- Python regex `\w` on ASCII: alphanumeric or underscore. -/
def isWordChar (c : Char) : Bool := c.isAlphanum || c == '_'

/-- `_tokenize_english`: lowercase, split on runs of non-word characters,
drop empty tokens.  Splitting at every non-word character and then dropping
empty tokens is the same as splitting on `[^\w]+`. -/
def tokenize_english (text : String) : List String :=
  (((text.data.map Char.toLower).splitOnP (fun c => !isWordChar c)).filter
    (fun cs => !cs.isEmpty)).map (fun cs => String.mk cs)

/-- Boundary punctuation recognized by `_tokenize_mixed` (line 170); again two
adjacent Python string literals, containing the ASCII double quote. -/
def MIXED_BOUNDARY_PUNCT : List Char :=
  ['，', '。', '！', '？', '、', '；', '：', '"', '（', '）', '【', '】']

/-- Flush a same-script segment with the appropriate tokenizer. -/
def flush_segment (jieba : String → List String) (isCjk : Bool) (seg : List Char) :
    List String :=
  if isCjk then tokenize_chinese jieba (String.mk seg) else tokenize_english (String.mk seg)

/-- Character-by-character loop of `_tokenize_mixed`: `cur` is the current
same-script segment and `curIs` records its script (`none` iff the segment is
empty, as in the Python invariant `current_is_cjk is None`). -/
def tokenize_mixed_go (jieba : String → List String) :
    List Char → List Char → Option Bool → List String
  | [], cur, curIs =>
    (match curIs with
     | none => []
     | some b => flush_segment jieba b cur)
  | c :: cs, cur, curIs =>
    if c.isWhitespace || pythonPunctuation.contains c || MIXED_BOUNDARY_PUNCT.contains c then
      (match curIs with
       | none => ([] : List String)
       | some b => flush_segment jieba b cur) ++ tokenize_mixed_go jieba cs [] none
    else
      match curIs with
      | none => tokenize_mixed_go jieba cs [c] (some (is_cjk_char c))
      | some b =>
        if is_cjk_char c == b then tokenize_mixed_go jieba cs (cur ++ [c]) (some b)
        else flush_segment jieba b cur ++ tokenize_mixed_go jieba cs [c] (some (is_cjk_char c))

/-- `_tokenize_mixed`: group maximal same-script runs separated at
whitespace/punctuation boundaries and tokenize each run appropriately. -/
def tokenize_mixed (jieba : String → List String) (text : String) : List String :=
  tokenize_mixed_go jieba text.data [] none

/-- `tokenize` (tokenizer.py line 116): empty/whitespace-only input yields the
empty token list (Python `not text or not text.strip()`), otherwise dispatch on
the detected language.  The function is total: the source has no raising
statements on any path. -/
def tokenize (jieba : String → List String) (text : String) : List String :=
  if text.data.all (fun c => c.isWhitespace) then []
  else if is_chinese_text text then tokenize_chinese jieba text
  else tokenize_mixed jieba text

/-- Concrete stand-in for the external jieba segmenter, used by witnesses. -/
def jieba_stub (s : String) : List String := [s]

/-- Concrete stand-in for `BM25Okapi.get_scores`, used by witnesses: one
score per corpus document, counting query-token occurrences. -/
def score_stub (corpus : List (List String)) (query_tokens : List String) : List ℚ :=
  corpus.map (fun doc => (doc.countP (fun t => query_tokens.contains t) : ℚ))

/-! ## Stable sort

Python `list.sort` is a stable sort.  We model it by insertion sort, which is
stable: an element is placed before a later element exactly when the
comparison `le` holds. -/

/-- Insert `a` into `l`, before the first element `b` with `le a b`. -/
def insertSorted {α : Type} (le : α → α → Bool) (a : α) : List α → List α
  | [] => [a]
  | b :: bs => if le a b then a :: b :: bs else b :: insertSorted le a bs

/-- Stable insertion sort. -/
def stableSort {α : Type} (le : α → α → Bool) : List α → List α
  | [] => []
  | a :: as => insertSorted le a (stableSort le as)

/-- Python `enumerate` starting at `i`. -/
def enumFrom {α : Type} (i : Nat) : List α → List (Nat × α)
  | [] => []
  | a :: as => (i, a) :: enumFrom (i + 1) as

/-! ## BM25 Index Service (`bm25_service.py`) -/

/-- Chunk to be indexed (`ChunkData`).  The dynamic `metadata` dict is
modelled as an association list of strings. -/
structure ChunkData where
  chunk_id : String
  text : String
  metadata : List (String × String)
deriving DecidableEq

/-- Result from a BM25 search query (`BM25SearchResult`). -/
structure BM25SearchResult where
  chunk_id : String
  text : String
  score : ℚ
  metadata : List (String × String)
deriving DecidableEq

/-- State of a `BM25Service` instance.  The in-memory `BM25Okapi` ranking
structure is a deterministic pure function of `tokenized_corpus` (it is
rebuilt from the corpus, never persisted), so the state does not store it:
`is_indexed` records whether `self._index` is non-None, and the scoring
function is passed explicitly where needed. -/
structure BM25Service where
  is_indexed : Bool
  chunks : List ChunkData
  tokenized_corpus : List (List String)
deriving DecidableEq

/-- `BM25Service.build_index`: rejects an empty chunk list with `ValueError`,
otherwise tokenizes every chunk with the unified tokenizer and builds the
index.  The Python method mutates `self`; here it returns the new state. -/
def BM25Service.build_index (jieba : String → List String) (chunks : List ChunkData) :
    Except String BM25Service :=
  if chunks.isEmpty then Except.error "Cannot build index from empty chunks list"
  else Except.ok
    { is_indexed := true, chunks := chunks,
      tokenized_corpus := chunks.map (fun c => tokenize jieba c.text) }

/-- Scored `(index, score)` pairs of `BM25Service.search`: keep scores
strictly above the threshold, then `scored_indices.sort(key=x[1],
reverse=True)` — a stable sort descending by score. -/
def bm25RankedIndices (scores : List ℚ) (score_threshold : ℚ) : List (Nat × ℚ) :=
  stableSort (fun a b => decide (b.2 ≤ a.2))
    ((enumFrom 0 scores).filter (fun p => decide (score_threshold < p.2)))

/-- `BM25Service.search`: raises `RuntimeError` when no index is built,
returns `[]` for an empty/whitespace or token-free query, otherwise scores
every chunk (`scoreFn` stands for `BM25Okapi.get_scores`), filters by the
strict threshold, sorts stably by score descending and returns the top `k`.
Out-of-range chunk accesses (impossible when `scoreFn` is length-preserving,
as `get_scores` is) are modelled with a default chunk. -/
def BM25Service.search (scoreFn : List (List String) → List String → List ℚ)
    (jieba : String → List String) (svc : BM25Service)
    (query : String) (k : Nat) (score_threshold : ℚ) :
    Except String (List BM25SearchResult) :=
  if !svc.is_indexed then Except.error "No index has been built. Call build_index() first."
  else if query.data.all (fun c => c.isWhitespace) then Except.ok []
  else
    let query_tokens := tokenize jieba query
    if query_tokens.isEmpty then Except.ok []
    else
      let scores := scoreFn svc.tokenized_corpus query_tokens
      let top_results := (bm25RankedIndices scores score_threshold).take k
      Except.ok (top_results.map (fun p =>
        let chunk := svc.chunks.getD p.1 { chunk_id := "", text := "", metadata := [] }
        { chunk_id := chunk.chunk_id, text := chunk.text, score := p.2,
          metadata := chunk.metadata }))

/-! ## BM25 Index Store (`bm25_store.py`) -/

/-- Association-list lookup, modelling both Python dict reads and the
per-document-id file store (first binding wins, as a freshly written file
shadows nothing older under the same key). -/
def alookup {β : Type} (key : String) : List (String × β) → Option β
  | [] => none
  | p :: ps => if p.1 = key then some p.2 else alookup key ps

/-- Serializable payload of one index file (`BM25IndexData`): only chunks and
tokenized corpus are durable; the ranking structure never is. -/
structure BM25IndexData where
  document_id : String
  chunks : List ChunkData
  tokenized_corpus : List (List String)
deriving DecidableEq

/-- `BM25IndexStore.save`: refuses with `ValueError` when the service has no
built index, otherwise writes the record for `document_id` (newest record
shadows any older one under the same key). -/
def BM25IndexStore.save (store : List (String × BM25IndexData)) (document_id : String)
    (service : BM25Service) : Except String (List (String × BM25IndexData)) :=
  if !service.is_indexed then Except.error "Cannot save: BM25Service has no built index"
  else Except.ok ((document_id,
    { document_id := document_id, chunks := service.chunks,
      tokenized_corpus := service.tokenized_corpus }) :: store)

/-- `BM25IndexStore.load`: `none` when no record exists, otherwise rebuild a
`BM25Service` from the stored chunks and tokenized corpus (the ranking
structure is reconstructed from the corpus, hence `is_indexed := true`). -/
def BM25IndexStore.load (store : List (String × BM25IndexData)) (document_id : String) :
    Option BM25Service :=
  match alookup document_id store with
  | none => none
  | some data =>
    some { is_indexed := true, chunks := data.chunks,
           tokenized_corpus := data.tokenized_corpus }

/-! ## Index Manager (`index_manager.py`)

The two backing stores are modelled by an explicit `World`: boolean flags say
whether a store call raises (the Python code catches these exceptions), the
`bm25Docs` field is the set of document ids with a stored keyword index, and
the `…Calls` fields record every call issued to the stores, so that the
theorems can speak about which operations were invoked.

Python metadata dicts are mutable heap objects; to state the frame property
(claim C10) faithfully the caller-supplied metadata dicts live in an explicit
heap of dicts, and a request holds heap addresses. -/

/-- Mutable Python dict, as an insertion-ordered association list. -/
abbrev PyDict := List (String × String)

/-- Heap of metadata dicts; an address is an index into the heap, and
allocation appends. -/
abbrev PyHeap := List PyDict

/-- Python `d[key] = value`: overwrite in place when the key exists, else
append the new binding. -/
def dict_set (d : PyDict) (key value : String) : PyDict :=
  if d.any (fun p => p.1 == key) then
    d.map (fun p => if p.1 == key then (key, value) else p)
  else d ++ [(key, value)]

/-- State of the two backing stores and their call log. -/
structure World where
  vectorAddFails : Bool
  vectorDeleteFails : Bool
  bm25SaveFails : Bool
  bm25DeleteFails : Bool
  bm25Docs : List String
  vectorAddCalls : List (String × String)
  vectorDeleteCalls : List (String × String)
  bm25SaveCalls : List String
  bm25DeleteCalls : List String
deriving DecidableEq

/-- `IndexDocumentRequest`.  `metadatas` holds heap addresses of the
caller-supplied metadata dicts. -/
structure IndexDocumentRequest where
  document_id : String
  user_id : String
  chunk_ids : List String
  texts : List String
  embeddings : List (List ℚ)
  metadatas : List Nat
deriving DecidableEq

/-- `IndexResult`. -/
structure IndexResult where
  success : Bool
  document_id : String
  vector_indexed : Bool
  bm25_indexed : Bool
  error : Option String
deriving DecidableEq

/-- `DeleteResult`. -/
structure DeleteResult where
  success : Bool
  document_id : String
  vector_deleted : Bool
  bm25_deleted : Bool
  error : Option String
deriving DecidableEq

/-- Loop body of `IndexManager._prepare_metadatas`: for each text position,
copy the caller dict (`metadata = dict(request.metadatas[i])`) when present,
else start from `{}`; force `user_id` and `document_id` into the fresh copy;
allocate the copy on the heap. -/
def prepare_metadatas_go (user_id document_id : String) :
    List (Option Nat) → PyHeap → List Nat × PyHeap
  | [], heap => ([], heap)
  | a :: rest, heap =>
    let base : PyDict :=
      match a with
      | some addr => heap.getD addr []
      | none => []
    let metadata := dict_set (dict_set base "user_id" user_id) "document_id" document_id
    let res := prepare_metadatas_go user_id document_id rest (heap ++ [metadata])
    (heap.length :: res.1, res.2)

/-- `IndexManager._prepare_metadatas`: one fresh metadata dict per text, the
caller dict at position `i` being used when `i < len(request.metadatas)`. -/
def IndexManager.prepare_metadatas (req : IndexDocumentRequest) (heap : PyHeap) :
    List Nat × PyHeap :=
  prepare_metadatas_go req.user_id req.document_id
    ((List.range req.texts.length).map (fun i => req.metadatas[i]?)) heap

/-- `IndexManager.index_document`: reject empty `texts`; prepare metadatas;
write the vector store (stop on failure); build and persist the BM25 index;
on BM25 failure roll the vector store back with a delete scoped to
`{document_id, user_id}` (recorded in `vectorDeleteCalls`; a failure of the
rollback delete itself is caught and only logged).  Error strings keep the
fixed prefix of the source message (the interpolated exception text is not
modelled). -/
def IndexManager.index_document (w : World) (heap : PyHeap) (req : IndexDocumentRequest) :
    IndexResult × World × PyHeap :=
  if req.texts.isEmpty then
    ({ success := false, document_id := req.document_id, vector_indexed := false,
       bm25_indexed := false, error := some "No texts provided for indexing" }, w, heap)
  else
    let heap1 := (IndexManager.prepare_metadatas req heap).2
    if w.vectorAddFails then
      ({ success := false, document_id := req.document_id, vector_indexed := false,
         bm25_indexed := false, error := some "Vector store indexing failed" }, w, heap1)
    else
      let w1 := { w with vectorAddCalls := w.vectorAddCalls ++ [(req.document_id, req.user_id)] }
      if w.bm25SaveFails then
        let w2 := { w1 with
          vectorDeleteCalls := w1.vectorDeleteCalls ++ [(req.document_id, req.user_id)] }
        ({ success := false, document_id := req.document_id, vector_indexed := false,
           bm25_indexed := false,
           error := some "BM25 indexing failed (vector store rolled back)" }, w2, heap1)
      else
        let w2 := { w1 with
          bm25SaveCalls := w1.bm25SaveCalls ++ [req.document_id],
          bm25Docs := req.document_id :: w1.bm25Docs.filter (fun d => d != req.document_id) }
        ({ success := true, document_id := req.document_id, vector_indexed := true,
           bm25_indexed := true, error := none }, w2, heap1)

/-- `IndexManager.delete_document`: attempt the vector-store delete (scoped by
document and user), then the BM25-store delete, each in its own try/except;
`success = vector_deleted or bm25_deleted`; error messages are joined with
"; ".  The function is total: every store failure is caught. -/
def IndexManager.delete_document (w : World) (document_id user_id : String) :
    DeleteResult × World :=
  let w1 := { w with vectorDeleteCalls := w.vectorDeleteCalls ++ [(document_id, user_id)] }
  let vector_deleted := !w.vectorDeleteFails
  let errors1 : List String :=
    if w.vectorDeleteFails then ["Vector store deletion failed"] else []
  let w2 := { w1 with bm25DeleteCalls := w1.bm25DeleteCalls ++ [document_id] }
  let step2 : Bool × World × List String :=
    if w.bm25DeleteFails then (false, w2, ["BM25 store deletion failed"])
    else (w2.bm25Docs.contains document_id,
          { w2 with bm25Docs := w2.bm25Docs.filter (fun d => d != document_id) }, [])
  let bm25_deleted := step2.1
  let w3 := step2.2.1
  let errors := errors1 ++ step2.2.2
  ({ success := vector_deleted || bm25_deleted, document_id := document_id,
     vector_deleted := vector_deleted, bm25_deleted := bm25_deleted,
     error := if errors.isEmpty then none else some (String.intercalate "; " errors) }, w3)

/-! ## Hybrid Retriever (`hybrid_retriever.py`) -/

/-- `RetrievalResult`: chunk data with the scores of both methods and the
fused score. -/
structure RetrievalResult where
  chunk_id : String
  text : String
  metadata : List (String × String)
  vector_score : Option ℚ
  bm25_score : Option ℚ
  fused_score : ℚ
deriving DecidableEq

/-- Configuration state of a `HybridRetriever` (weights and RRF constant). -/
structure HybridRetriever where
  vector_weight : ℚ
  bm25_weight : ℚ
  rrf_k : ℚ
deriving DecidableEq

/-- `HybridRetriever.__init__` assigns `self._vector_weight` and
`self._bm25_weight` directly, without going through the validating property
setters. -/
def HybridRetriever.init (vector_weight bm25_weight rrf_k : ℚ) : HybridRetriever :=
  { vector_weight := vector_weight, bm25_weight := bm25_weight, rrf_k := rrf_k }

/-- Property setter for `vector_weight`: rejects values outside `[0, 1]` with
`ValueError` and leaves the state unchanged in that case. -/
def HybridRetriever.set_vector_weight (r : HybridRetriever) (value : ℚ) :
    Except String HybridRetriever :=
  if 0 ≤ value ∧ value ≤ 1 then Except.ok { r with vector_weight := value }
  else Except.error "vector_weight must be between 0.0 and 1.0"

/-- Property setter for `bm25_weight`: rejects values outside `[0, 1]` with
`ValueError` and leaves the state unchanged in that case. -/
def HybridRetriever.set_bm25_weight (r : HybridRetriever) (value : ℚ) :
    Except String HybridRetriever :=
  if 0 ≤ value ∧ value ≤ 1 then Except.ok { r with bm25_weight := value }
  else Except.error "bm25_weight must be between 0.0 and 1.0"

/-- Update every binding of `key` in place, preserving dict order (Python
`result_map[chunk_id].field = …` mutation). -/
def updAssoc {β : Type} (key : String) (f : β → β) (m : List (String × β)) :
    List (String × β) :=
  m.map (fun p => if p.1 = key then (p.1, f p.2) else p)

/-- First loop of `HybridRetriever._rrf_fusion`: walk the vector results with
1-based rank; a new chunk id is inserted at the end of the (insertion-ordered)
map with `fused_score` equal to its RRF term, an existing one gets its
`vector_score` set and the RRF term added to `fused_score`. -/
def rrf_vector_pass (vector_weight rrf_k : ℚ) :
    List RetrievalResult → ℚ → List (String × RetrievalResult) →
    List (String × RetrievalResult)
  | [], _, result_map => result_map
  | r :: rs, rank, result_map =>
    let rrf_score := vector_weight * (1 / (rrf_k + rank))
    let m :=
      if (alookup r.chunk_id result_map).isSome then
        updAssoc r.chunk_id
          (fun e => { e with vector_score := r.vector_score,
                             fused_score := e.fused_score + rrf_score }) result_map
      else
        result_map ++ [(r.chunk_id,
          { chunk_id := r.chunk_id, text := r.text, metadata := r.metadata,
            vector_score := r.vector_score, bm25_score := none, fused_score := rrf_score })]
    rrf_vector_pass vector_weight rrf_k rs (rank + 1) m

/-- Second loop of `HybridRetriever._rrf_fusion`, symmetric to the first, for
the BM25 results. -/
def rrf_bm25_pass (bm25_weight rrf_k : ℚ) :
    List RetrievalResult → ℚ → List (String × RetrievalResult) →
    List (String × RetrievalResult)
  | [], _, result_map => result_map
  | r :: rs, rank, result_map =>
    let rrf_score := bm25_weight * (1 / (rrf_k + rank))
    let m :=
      if (alookup r.chunk_id result_map).isSome then
        updAssoc r.chunk_id
          (fun e => { e with bm25_score := r.bm25_score,
                             fused_score := e.fused_score + rrf_score }) result_map
      else
        result_map ++ [(r.chunk_id,
          { chunk_id := r.chunk_id, text := r.text, metadata := r.metadata,
            vector_score := none, bm25_score := r.bm25_score, fused_score := rrf_score })]
    rrf_bm25_pass bm25_weight rrf_k rs (rank + 1) m

/-- `HybridRetriever._rrf_fusion`: run both passes over an insertion-ordered
map keyed by chunk id, then sort the values by fused score descending
(Python `sorted(…, reverse=True)` is stable). -/
def rrf_fusion (vector_weight bm25_weight rrf_k : ℚ)
    (vector_results bm25_results : List RetrievalResult) : List RetrievalResult :=
  let m1 := rrf_vector_pass vector_weight rrf_k vector_results 1 []
  let m2 := rrf_bm25_pass bm25_weight rrf_k bm25_results 1 m1
  stableSort (fun a b => decide (b.fused_score ≤ a.fused_score)) (m2.map Prod.snd)

/-- Reference RRF term of one result list: `w * (1 / (rrf_k + rank))` at the
1-based rank of the first occurrence of `c`, and `0` when `c` is absent. -/
def rrf_contrib (w rrf_k : ℚ) (c : String) : List String → ℚ → ℚ
  | [], _ => 0
  | x :: xs, rank =>
    if x = c then w * (1 / (rrf_k + rank)) else rrf_contrib w rrf_k c xs (rank + 1)

/-- Reply of `collection.query` for a single query embedding: the per-index
aligned lists of the vector store contract (`ids`, `documents`, `metadatas`,
`distances`); `none` models a raised exception, caught by the retriever. -/
structure ChromaQueryReply where
  ids : List String
  documents : List String
  metadatas : List (List (String × String))
  distances : List ℚ
deriving DecidableEq

/-- Body of the result loop of `_vector_search`: each returned distance `d`
becomes the similarity score `1 / (1 + d)`, used as initial fused score. -/
def build_vector_results :
    List String → List String → List (List (String × String)) → List ℚ →
    List RetrievalResult
  | cid :: cids, doc :: docs, md :: mds, d :: ds =>
    { chunk_id := cid, text := doc, metadata := md,
      vector_score := some (1 / (1 + d)), bm25_score := none, fused_score := 1 / (1 + d) }
      :: build_vector_results cids docs mds ds
  | _, _, _, _ => []

/-- `HybridRetriever._vector_search`: a query exception or an empty id list
yields zero results, otherwise the distances are converted to scores. -/
def vector_search (reply : Option ChromaQueryReply) : List RetrievalResult :=
  match reply with
  | none => []
  | some rep =>
    if rep.ids.isEmpty then []
    else build_vector_results rep.ids rep.documents rep.metadatas rep.distances

/-- Outcome of the keyword side of a hybrid search: the stored index is
missing (`load` returned `None`), the BM25 search raised, or it returned a
result list. -/
inductive BM25Outcome where
  | missing
  | errored
  | ok (results : List RetrievalResult)
deriving DecidableEq

/-- `HybridRetriever._bm25_search`: both the missing-index case and a caught
exception collapse to zero results. -/
def bm25_search_results (outcome : BM25Outcome) : List RetrievalResult :=
  match outcome with
  | BM25Outcome.missing => []
  | BM25Outcome.errored => []
  | BM25Outcome.ok results => results

/-- `HybridRetriever.search`: vector search and BM25 search (each over the
store replies passed in), vector-only fallback when BM25 produced no results,
otherwise RRF fusion; truncate to `k`. -/
def HybridRetriever.search (r : HybridRetriever) (reply : Option ChromaQueryReply)
    (outcome : BM25Outcome) (k : Nat) : List RetrievalResult :=
  let vector_results := vector_search reply
  let bm25_results := bm25_search_results outcome
  if bm25_results.isEmpty then vector_results.take k
  else (rrf_fusion r.vector_weight r.bm25_weight r.rrf_k vector_results bm25_results).take k

theorem insertSorted_perm {α : Type} (le : α → α → Bool) (a : α) (l : List α) :
    (insertSorted le a l).Perm (a :: l) := by
  induction l with
  | nil => simp [insertSorted]
  | cons b bs ih =>
    by_cases h : le a b
    · simp [insertSorted, h]
    · simp only [insertSorted, h, if_neg]
      exact (List.Perm.cons b ih).trans (List.Perm.swap a b bs)

theorem stableSort_perm {α : Type} (le : α → α → Bool) (l : List α) :
    (stableSort le l).Perm l := by
  induction l with
  | nil => simp [stableSort]
  | cons a as ih =>
    exact (insertSorted_perm le a (stableSort le as)).trans (List.Perm.cons a ih)

theorem mem_insertSorted {α : Type} {le : α → α → Bool} {a x : α} {l : List α} :
    x ∈ insertSorted le a l ↔ x = a ∨ x ∈ l := by
  rw [(insertSorted_perm le a l).mem_iff, List.mem_cons]

theorem mem_stableSort {α : Type} {le : α → α → Bool} {x : α} {l : List α} :
    x ∈ stableSort le l ↔ x ∈ l :=
  (stableSort_perm le l).mem_iff

theorem insertSorted_pairwise {α : Type} {le : α → α → Bool}
    (htrans : ∀ a b c, le a b = true → le b c = true → le a c = true)
    (htotal : ∀ a b, le a b = true ∨ le b a = true)
    {a : α} {l : List α} (hl : l.Pairwise (fun x y => le x y = true)) :
    (insertSorted le a l).Pairwise (fun x y => le x y = true) := by
  induction l with
  | nil => simp [insertSorted]
  | cons b bs ih =>
    rcases List.pairwise_cons.mp hl with ⟨hb, hbs⟩
    by_cases h : le a b
    · simp only [insertSorted, h, if_pos]
      refine List.pairwise_cons.mpr ⟨?_, hl⟩
      intro x hx
      rcases List.mem_cons.mp hx with rfl | hx
      · exact h
      · exact htrans a b x h (hb x hx)
    · simp only [insertSorted, h, if_neg]
      refine List.pairwise_cons.mpr ⟨?_, ih hbs⟩
      intro x hx
      rcases mem_insertSorted.mp hx with h1 | hx
      · rw [h1]
        rcases htotal a b with h' | h'
        · exact absurd h' h
        · exact h'
      · exact hb x hx

theorem stableSort_pairwise {α : Type} {le : α → α → Bool}
    (htrans : ∀ a b c, le a b = true → le b c = true → le a c = true)
    (htotal : ∀ a b, le a b = true ∨ le b a = true)
    (l : List α) : (stableSort le l).Pairwise (fun x y => le x y = true) := by
  induction l with
  | nil => simp [stableSort]
  | cons a as ih => exact insertSorted_pairwise htrans htotal ih

theorem insertSorted_pairwise_lex {a : Nat × ℚ} {l : List (Nat × ℚ)}
    (hl : l.Pairwise (fun x y => y.2 < x.2 ∨ (x.2 = y.2 ∧ x.1 < y.1)))
    (hidx : ∀ b ∈ l, a.1 < b.1) :
    (insertSorted (fun x y => decide (y.2 ≤ x.2)) a l).Pairwise
      (fun x y => y.2 < x.2 ∨ (x.2 = y.2 ∧ x.1 < y.1)) := by
  induction l with
  | nil => simp [insertSorted]
  | cons b bs ih =>
    rcases List.pairwise_cons.mp hl with ⟨hb, hbs⟩
    by_cases h : b.2 ≤ a.2
    · simp only [insertSorted, decide_eq_true_eq]
      rw [if_pos h]
      refine List.pairwise_cons.mpr ⟨?_, hl⟩
      intro y hy
      rcases List.mem_cons.mp hy with h1 | hy
      · rw [h1]
        rcases lt_or_eq_of_le h with hlt | heq
        · exact Or.inl hlt
        · exact Or.inr ⟨heq.symm, hidx b (List.mem_cons_self b bs)⟩
      · rcases hb y hy with hlt | ⟨heq, hidx'⟩
        · exact Or.inl (lt_of_lt_of_le hlt h)
        · rcases lt_or_eq_of_le h with hlt2 | heq2
          · exact Or.inl (heq ▸ hlt2)
          · exact Or.inr ⟨heq2.symm.trans heq, hidx y (List.mem_cons_of_mem b hy)⟩
    · simp only [insertSorted, decide_eq_true_eq]
      rw [if_neg h]
      refine List.pairwise_cons.mpr
        ⟨?_, ih hbs (fun c hc => hidx c (List.mem_cons_of_mem b hc))⟩
      intro x hx
      rcases mem_insertSorted.mp hx with h1 | hx
      · rw [h1]
        exact Or.inl (lt_of_not_le h)
      · exact hb x hx

theorem stableSort_pairwise_lex (l : List (Nat × ℚ))
    (hidx : l.Pairwise (fun x y => x.1 < y.1)) :
    (stableSort (fun x y => decide (y.2 ≤ x.2)) l).Pairwise
      (fun x y => y.2 < x.2 ∨ (x.2 = y.2 ∧ x.1 < y.1)) := by
  induction l with
  | nil => simp [stableSort]
  | cons a as ih =>
    rcases List.pairwise_cons.mp hidx with ⟨ha, has⟩
    exact insertSorted_pairwise_lex (ih has) (fun b hb => ha b (mem_stableSort.mp hb))

theorem le_fst_of_mem_enumFrom {α : Type} :
    ∀ {l : List α} {i : Nat} {p : Nat × α}, p ∈ enumFrom i l → i ≤ p.1
  | [], _, _, h => by simp [enumFrom] at h
  | a :: as, i, p, h => by
    simp only [enumFrom, List.mem_cons] at h
    rcases h with h1 | h
    · rw [h1]
    · exact Nat.le_of_succ_le (le_fst_of_mem_enumFrom h)

theorem pairwise_enumFrom {α : Type} :
    ∀ (l : List α) (i : Nat), (enumFrom i l).Pairwise (fun x y => x.1 < y.1)
  | [], _ => by simp [enumFrom]
  | a :: as, i => by
    simp only [enumFrom]
    refine List.pairwise_cons.mpr ⟨?_, pairwise_enumFrom as (i + 1)⟩
    intro q hq
    exact Nat.lt_of_lt_of_le (Nat.lt_succ_self i) (le_fst_of_mem_enumFrom hq)

/-- C6: `tokenize` never raises (it is embedded as a total function, matching
the source, which raises on no path), it is deterministic, and an empty or
whitespace-only input yields the empty token sequence. -/
theorem C6_tokenize_total_deterministic_empty (jieba : String → List String) (s : String) :
    tokenize jieba s = tokenize jieba s ∧
    (s.data.all (fun c => c.isWhitespace) = true → tokenize jieba s = []) :=
  ⟨rfl, fun h => by simp [tokenize, h]⟩

theorem C6_witness :
    tokenize jieba_stub "" = [] ∧ tokenize jieba_stub "   " = [] :=
  ⟨(C6_tokenize_total_deterministic_empty jieba_stub "").2 (by decide),
   (C6_tokenize_total_deterministic_empty jieba_stub "   ").2 (by decide)⟩

/-- C9: with a built index, `BM25Service.search` returns the empty list (and
does not raise) for every query whose tokenization yields no tokens — whether
the query is empty, whitespace-only, or punctuation-only. -/
theorem C9_search_token_free_query
    (scoreFn : List (List String) → List String → List ℚ)
    (jieba : String → List String) (svc : BM25Service)
    (query : String) (k : Nat) (score_threshold : ℚ)
    (hidx : svc.is_indexed = true) (htok : tokenize jieba query = []) :
    BM25Service.search scoreFn jieba svc query k score_threshold = Except.ok [] := by
  unfold BM25Service.search
  rw [hidx]
  by_cases hws : query.data.all (fun c => c.isWhitespace) = true
  · simp [hws]
  · simp [hws, htok]

/-- The punctuation-only query "!!!" tokenizes to no tokens at all. -/
theorem tokenize_punct_only_example : tokenize jieba_stub "!!!" = [] := by
  have h0 : calculate_cjk_fraction "!!!" = 0 := by decide
  have hz : is_chinese_text "!!!" = false := by
    norm_num [is_chinese_text, h0, CJK_RATIO_THRESHOLD]
  have hws : ("!!!".data.all (fun c => c.isWhitespace)) = false := by decide
  simp only [tokenize, hws, hz, Bool.false_eq_true, if_false]
  decide

theorem C9_witness :
    tokenize jieba_stub "!!!" = [] ∧
    BM25Service.search score_stub jieba_stub
      ⟨true, [⟨"c1", "Hello world", []⟩], [["hello", "world"]]⟩ "!!!" 5 0 =
      Except.ok [] :=
  ⟨tokenize_punct_only_example,
   C9_search_token_free_query score_stub jieba_stub
     ⟨true, [⟨"c1", "Hello world", []⟩], [["hello", "world"]]⟩ "!!!" 5 0 rfl
     tokenize_punct_only_example⟩

/-- C7 counterexample: the claim says weight validation applies to every way a
weight can be assigned, including at construction; but `__init__` writes
`self._vector_weight` directly, bypassing the property setter, so
constructing a retriever with `vector_weight = 2` succeeds and leaves the
out-of-range weight in place. -/
theorem C7_counterexample :
    (HybridRetriever.init 2 (3/10) 60).vector_weight = 2 ∧ ¬ ((2 : ℚ) ≤ 1) :=
  ⟨rfl, by norm_num⟩

/-- C7 (amended): assignment through the `vector_weight` / `bm25_weight`
property setters validates the value to lie in `[0, 1]`; an out-of-range
value fails with `ValueError` and the retriever is unchanged.  Construction
does not validate. -/
theorem C7_weight_setters_validate (r : HybridRetriever) (value : ℚ) :
    (0 ≤ value ∧ value ≤ 1 →
      r.set_vector_weight value = Except.ok { r with vector_weight := value } ∧
      r.set_bm25_weight value = Except.ok { r with bm25_weight := value }) ∧
    (¬ (0 ≤ value ∧ value ≤ 1) →
      r.set_vector_weight value = Except.error "vector_weight must be between 0.0 and 1.0" ∧
      r.set_bm25_weight value = Except.error "bm25_weight must be between 0.0 and 1.0") := by
  constructor <;> intro h <;>
    simp [HybridRetriever.set_vector_weight, HybridRetriever.set_bm25_weight, h]

theorem C7_witness :
    ((0 : ℚ) ≤ 1/2 ∧ (1/2 : ℚ) ≤ 1) ∧
    (HybridRetriever.init (7/10) (3/10) 60).set_vector_weight (1/2) =
      Except.ok { HybridRetriever.init (7/10) (3/10) 60 with vector_weight := 1/2 } ∧
    (HybridRetriever.init (7/10) (3/10) 60).set_bm25_weight (1/2) =
      Except.ok { HybridRetriever.init (7/10) (3/10) 60 with bm25_weight := 1/2 } :=
  ⟨by norm_num,
   ((C7_weight_setters_validate (HybridRetriever.init (7/10) (3/10) 60) (1/2)).1
     (by norm_num)).1,
   ((C7_weight_setters_validate (HybridRetriever.init (7/10) (3/10) 60) (1/2)).1
     (by norm_num)).2⟩

theorem is_chinese_text_eq_false_of_no_cjk (text : String)
    (h : (text.data.filter
      (fun c => !c.isWhitespace && !pythonPunctuation.contains c)).countP
        (fun c => is_cjk_char c) = 0) :
    is_chinese_text text = false := by
  unfold is_chinese_text calculate_cjk_fraction
  by_cases he : (text.data.filter
      (fun c => !c.isWhitespace && !pythonPunctuation.contains c)).isEmpty
  · simp only [he, if_pos]
    norm_num [CJK_RATIO_THRESHOLD]
  · simp only [he, Bool.false_eq_true, if_false, h]
    norm_num [CJK_RATIO_THRESHOLD]

/-- The example sentence "Hello world" tokenizes to `["hello", "world"]`. -/
theorem tokenize_hello_world_example :
    tokenize jieba_stub "Hello world" = ["hello", "world"] := by
  have hz : is_chinese_text "Hello world" = false :=
    is_chinese_text_eq_false_of_no_cjk "Hello world" (by decide)
  have hws : ("Hello world".data.all (fun c => c.isWhitespace)) = false := by decide
  simp only [tokenize, hws, hz, Bool.false_eq_true, if_false]
  decide

/-- C5: saving a BM25 service built from a non-empty chunk list under a
document id and loading that id back yields a service whose search results
for every query are identical to those of the original in-memory service
(the ranking structure is a pure function of the persisted tokenized corpus,
so the equality is exact); and loading a document id with no stored record
returns `none`. -/
theorem C5_index_round_trip
    (jieba : String → List String) (scoreFn : List (List String) → List String → List ℚ)
    (X : List ChunkData) (svc : BM25Service)
    (store : List (String × BM25IndexData)) (document_id : String)
    (hX : X ≠ [])
    (hbuild : BM25Service.build_index jieba X = Except.ok svc) :
    (∃ store2, BM25IndexStore.save store document_id svc = Except.ok store2 ∧
      ∃ svc2, BM25IndexStore.load store2 document_id = some svc2 ∧
        ∀ q k thr, BM25Service.search scoreFn jieba svc2 q k thr =
          BM25Service.search scoreFn jieba svc q k thr) ∧
    (∀ (s : List (String × BM25IndexData)) (d : String), alookup d s = none →
      BM25IndexStore.load s d = none) := by
  constructor
  · have hX' : X.isEmpty = false := by
      cases X with
      | nil => exact absurd rfl hX
      | cons a as => rfl
    rw [BM25Service.build_index, hX'] at hbuild
    simp only [Bool.false_eq_true, if_false] at hbuild
    have hsvc : svc =
        { is_indexed := true, chunks := X,
          tokenized_corpus := X.map (fun c => tokenize jieba c.text) } :=
      (Except.ok.inj hbuild).symm
    subst hsvc
    refine ⟨_, rfl, ⟨true, X, X.map (fun c => tokenize jieba c.text)⟩, ?_,
      fun q k thr => rfl⟩
    simp [BM25IndexStore.load, alookup]
  · intro s d h
    simp [BM25IndexStore.load, h]

theorem C5_witness :
    ([⟨"c1", "Hello world", []⟩] : List ChunkData) ≠ [] ∧
    BM25Service.build_index jieba_stub [⟨"c1", "Hello world", []⟩] =
      Except.ok ⟨true, [⟨"c1", "Hello world", []⟩], [["hello", "world"]]⟩ ∧
    (∃ store2, BM25IndexStore.save [] "doc1"
        ⟨true, [⟨"c1", "Hello world", []⟩], [["hello", "world"]]⟩ = Except.ok store2 ∧
      ∃ svc2, BM25IndexStore.load store2 "doc1" = some svc2 ∧
        ∀ q k thr, BM25Service.search score_stub jieba_stub svc2 q k thr =
          BM25Service.search score_stub jieba_stub
            ⟨true, [⟨"c1", "Hello world", []⟩], [["hello", "world"]]⟩ q k thr) := by
  have hbuild : BM25Service.build_index jieba_stub [⟨"c1", "Hello world", []⟩] =
      Except.ok ⟨true, [⟨"c1", "Hello world", []⟩], [["hello", "world"]]⟩ := by
    rw [BM25Service.build_index]
    simp [tokenize_hello_world_example]
  exact ⟨by decide, hbuild,
    (C5_index_round_trip jieba_stub score_stub _ _ [] "doc1" (by decide) hbuild).1⟩

theorem prepare_metadatas_go_preserves (user_id document_id : String)
    (l : List (Option Nat)) :
    ∀ (heap : PyHeap) (i : Nat), i < heap.length →
      (prepare_metadatas_go user_id document_id l heap).2[i]? = heap[i]? := by
  induction l with
  | nil => intro heap i hi; rfl
  | cons a rest ih =>
    intro heap i hi
    simp only [prepare_metadatas_go]
    rw [ih _ i (by simp only [List.length_append, List.length_cons, List.length_nil]; omega)]
    rw [List.getElem?_append, if_pos hi]

/-- C10: `IndexManager.index_document` never mutates the caller metadata
dicts: the forced `user_id`/`document_id` fields are written into fresh
copies (`dict(request.metadatas[i])`), so every heap cell that existed before
the call — in particular every dict referenced by `request.metadatas` — is
unchanged afterwards, whatever the outcome of the indexing. -/
theorem C10_index_document_preserves_caller_metadata
    (w : World) (heap : PyHeap) (req : IndexDocumentRequest) (i : Nat)
    (hi : i < heap.length) :
    (IndexManager.index_document w heap req).2.2[i]? = heap[i]? := by
  unfold IndexManager.index_document
  by_cases ht : req.texts.isEmpty
  · simp [ht]
  · have hpres := prepare_metadatas_go_preserves req.user_id req.document_id
      ((List.range req.texts.length).map (fun j => req.metadatas[j]?)) heap i hi
    by_cases hv : w.vectorAddFails <;> by_cases hb : w.bm25SaveFails <;>
      simp [ht, hv, hb, IndexManager.prepare_metadatas, hpres]

theorem C10_witness :
    0 < ([[("section", "intro")]] : PyHeap).length ∧
    (IndexManager.index_document
      ⟨false, false, false, false, [], [], [], [], []⟩
      [[("section", "intro")]]
      ⟨"doc1", "user1", ["c1"], ["Hello world"], [], [0]⟩).2.2[0]? =
      ([[("section", "intro")]] : PyHeap)[0]? :=
  ⟨by decide,
   C10_index_document_preserves_caller_metadata
     ⟨false, false, false, false, [], [], [], [], []⟩
     [[("section", "intro")]]
     ⟨"doc1", "user1", ["c1"], ["Hello world"], [], [0]⟩ 0 (by decide)⟩

/-- C1: for a request with non-empty `texts`, if the vector-store add
succeeds but persisting the BM25 index fails, `index_document` issues a
vector-store delete scoped to the request's `{document_id, user_id}` (the
rollback) and returns a failed `IndexResult` with both flags false and a
non-null error; if the vector-store add itself fails, it returns both flags
false with an error and never touches the keyword store (the store state is
completely unchanged). -/
theorem C1_index_document_rollback
    (w : World) (heap : PyHeap) (req : IndexDocumentRequest)
    (ht : req.texts ≠ []) :
    (w.vectorAddFails = false → w.bm25SaveFails = true →
      ((IndexManager.index_document w heap req).1.success = false ∧
       (IndexManager.index_document w heap req).1.vector_indexed = false ∧
       (IndexManager.index_document w heap req).1.bm25_indexed = false ∧
       (IndexManager.index_document w heap req).1.error ≠ none ∧
       (req.document_id, req.user_id) ∈
         (IndexManager.index_document w heap req).2.1.vectorDeleteCalls)) ∧
    (w.vectorAddFails = true →
      ((IndexManager.index_document w heap req).1.success = false ∧
       (IndexManager.index_document w heap req).1.vector_indexed = false ∧
       (IndexManager.index_document w heap req).1.bm25_indexed = false ∧
       (IndexManager.index_document w heap req).1.error ≠ none ∧
       (IndexManager.index_document w heap req).2.1 = w)) := by
  have ht' : req.texts.isEmpty = false := by
    cases hx : req.texts with
    | nil => exact absurd hx ht
    | cons a as => rfl
  constructor
  · intro hv hb
    simp [IndexManager.index_document, ht', hv, hb]
  · intro hv
    simp [IndexManager.index_document, ht', hv]

theorem C1_witness :
    (["Hello world"] ≠ ([] : List String)) ∧
    ((IndexManager.index_document
        ⟨false, false, true, false, [], [], [], [], []⟩ []
        ⟨"doc1", "user1", ["c1"], ["Hello world"], [], []⟩).1.success = false ∧
     (IndexManager.index_document
        ⟨false, false, true, false, [], [], [], [], []⟩ []
        ⟨"doc1", "user1", ["c1"], ["Hello world"], [], []⟩).1.vector_indexed = false ∧
     (IndexManager.index_document
        ⟨false, false, true, false, [], [], [], [], []⟩ []
        ⟨"doc1", "user1", ["c1"], ["Hello world"], [], []⟩).1.bm25_indexed = false ∧
     (IndexManager.index_document
        ⟨false, false, true, false, [], [], [], [], []⟩ []
        ⟨"doc1", "user1", ["c1"], ["Hello world"], [], []⟩).1.error ≠ none ∧
     ("doc1", "user1") ∈
       (IndexManager.index_document
        ⟨false, false, true, false, [], [], [], [], []⟩ []
        ⟨"doc1", "user1", ["c1"], ["Hello world"], [], []⟩).2.1.vectorDeleteCalls) ∧
    ((IndexManager.index_document
        ⟨true, false, false, false, [], [], [], [], []⟩ []
        ⟨"doc1", "user1", ["c1"], ["Hello world"], [], []⟩).1.success = false ∧
     (IndexManager.index_document
        ⟨true, false, false, false, [], [], [], [], []⟩ []
        ⟨"doc1", "user1", ["c1"], ["Hello world"], [], []⟩).1.vector_indexed = false ∧
     (IndexManager.index_document
        ⟨true, false, false, false, [], [], [], [], []⟩ []
        ⟨"doc1", "user1", ["c1"], ["Hello world"], [], []⟩).1.bm25_indexed = false ∧
     (IndexManager.index_document
        ⟨true, false, false, false, [], [], [], [], []⟩ []
        ⟨"doc1", "user1", ["c1"], ["Hello world"], [], []⟩).1.error ≠ none ∧
     (IndexManager.index_document
        ⟨true, false, false, false, [], [], [], [], []⟩ []
        ⟨"doc1", "user1", ["c1"], ["Hello world"], [], []⟩).2.1 =
       ⟨true, false, false, false, [], [], [], [], []⟩) :=
  ⟨by decide,
   (C1_index_document_rollback ⟨false, false, true, false, [], [], [], [], []⟩ []
     ⟨"doc1", "user1", ["c1"], ["Hello world"], [], []⟩ (by decide)).1 rfl rfl,
   (C1_index_document_rollback ⟨true, false, false, false, [], [], [], [], []⟩ []
     ⟨"doc1", "user1", ["c1"], ["Hello world"], [], []⟩ (by decide)).2 rfl⟩

/-- C8: `delete_document` never raises (it is embedded as a total function:
both store deletions are wrapped in try/except in the source); its overall
`success` flag equals `vector_deleted OR bm25_deleted`; it always attempts
both store deletions (both call logs grow regardless of either failure flag);
and, whenever the vector-store delete does not fail, it is idempotent:
calling it twice in a row for the same `{document_id, user_id}` returns
success both times, the second call reporting `bm25_deleted = false`. -/
theorem C8_delete_document_idempotent (w : World) (document_id user_id : String) :
    ((IndexManager.delete_document w document_id user_id).1.success =
      ((IndexManager.delete_document w document_id user_id).1.vector_deleted ||
       (IndexManager.delete_document w document_id user_id).1.bm25_deleted)) ∧
    ((document_id, user_id) ∈
       (IndexManager.delete_document w document_id user_id).2.vectorDeleteCalls ∧
     document_id ∈
       (IndexManager.delete_document w document_id user_id).2.bm25DeleteCalls) ∧
    (w.vectorDeleteFails = false →
      ((IndexManager.delete_document w document_id user_id).1.success = true ∧
       (IndexManager.delete_document
         (IndexManager.delete_document w document_id user_id).2
         document_id user_id).1.success = true ∧
       (IndexManager.delete_document
         (IndexManager.delete_document w document_id user_id).2
         document_id user_id).1.bm25_deleted = false)) := by
  refine ⟨rfl, ?_, ?_⟩
  · by_cases hb : w.bm25DeleteFails <;>
      simp [IndexManager.delete_document, hb]
  · intro hv
    by_cases hb : w.bm25DeleteFails <;>
      simp [IndexManager.delete_document, hb, hv, List.contains, List.mem_filter]

theorem C8_witness :
    ((⟨false, false, false, false, ["doc1"], [], [], [], []⟩ : World).vectorDeleteFails
      = false) ∧
    ((IndexManager.delete_document
        ⟨false, false, false, false, ["doc1"], [], [], [], []⟩ "doc1" "user1").1.success
      = true ∧
     (IndexManager.delete_document
        (IndexManager.delete_document
          ⟨false, false, false, false, ["doc1"], [], [], [], []⟩ "doc1" "user1").2
        "doc1" "user1").1.success = true ∧
     (IndexManager.delete_document
        (IndexManager.delete_document
          ⟨false, false, false, false, ["doc1"], [], [], [], []⟩ "doc1" "user1").2
        "doc1" "user1").1.bm25_deleted = false) :=
  ⟨rfl,
   (C8_delete_document_idempotent
     ⟨false, false, false, false, ["doc1"], [], [], [], []⟩ "doc1" "user1").2.2 rfl⟩

theorem mem_build_vector_results {r : RetrievalResult} :
    ∀ (cids docs : List String) (mds : List (List (String × String))) (ds : List ℚ),
      r ∈ build_vector_results cids docs mds ds →
      ∃ d ∈ ds, r.vector_score = some (1 / (1 + d)) ∧ r.fused_score = 1 / (1 + d)
  | [], docs, mds, ds, h => by simp [build_vector_results] at h
  | c :: cs, [], mds, ds, h => by simp [build_vector_results] at h
  | c :: cs, d0 :: docs, [], ds, h => by simp [build_vector_results] at h
  | c :: cs, d0 :: docs, m :: ms, [], h => by simp [build_vector_results] at h
  | c :: cs, d0 :: docs, m :: ms, t :: ts, h => by
    simp only [build_vector_results, List.mem_cons] at h
    rcases h with h1 | h
    · exact ⟨t, List.mem_cons_self t ts, by rw [h1], by rw [h1]⟩
    · obtain ⟨d, hd, h2⟩ := mem_build_vector_results cs docs ms ts h
      exact ⟨d, List.mem_cons_of_mem _ hd, h2⟩

theorem pairwise_build_vector_results :
    ∀ (cids docs : List String) (mds : List (List (String × String))) (ds : List ℚ),
      ds.Pairwise (· ≤ ·) → (∀ d ∈ ds, 0 ≤ d) →
      (build_vector_results cids docs mds ds).Pairwise
        (fun a b => b.fused_score ≤ a.fused_score)
  | [], docs, mds, ds, _, _ => by simp [build_vector_results]
  | c :: cs, [], mds, ds, _, _ => by simp [build_vector_results]
  | c :: cs, d0 :: docs, [], ds, _, _ => by simp [build_vector_results]
  | c :: cs, d0 :: docs, m :: ms, [], _, _ => by simp [build_vector_results]
  | c :: cs, d0 :: docs, m :: ms, t :: ts, hs, hnn => by
    rcases List.pairwise_cons.mp hs with ⟨ht, hts⟩
    simp only [build_vector_results]
    refine List.pairwise_cons.mpr ⟨?_, pairwise_build_vector_results cs docs ms ts hts
      (fun d hd => hnn d (List.mem_cons_of_mem t hd))⟩
    intro r' hr'
    obtain ⟨d, hd, _, hf⟩ := mem_build_vector_results cs docs ms ts hr'
    rw [hf]
    have h0 : (0 : ℚ) < 1 + t := by
      have := hnn t (List.mem_cons_self t ts)
      linarith
    exact one_div_le_one_div_of_le h0 (by have := ht d hd; linarith)

/-- C3: whenever the BM25 side of `HybridRetriever.search` produced zero
results — the stored index is missing, the keyword search raised, or it
returned an empty list — the search returns exactly the first `k` vector
results, skipping fusion; and when the vector store reply lists its
candidates by ascending (non-negative) distance, as the vector store
contract guarantees, that list is sorted by vector score descending (each
result carrying its vector score as its fused score). -/
theorem C3_bm25_empty_fallback (r : HybridRetriever) (reply : Option ChromaQueryReply)
    (outcome : BM25Outcome) (k : Nat)
    (hB : bm25_search_results outcome = []) :
    HybridRetriever.search r reply outcome k = (vector_search reply).take k ∧
    (∀ rep, reply = some rep →
      rep.distances.Pairwise (· ≤ ·) → (∀ d ∈ rep.distances, 0 ≤ d) →
      ((HybridRetriever.search r reply outcome k).Pairwise
        (fun a b => b.fused_score ≤ a.fused_score) ∧
       (∀ res ∈ HybridRetriever.search r reply outcome k,
         res.vector_score = some res.fused_score))) := by
  have hmain : HybridRetriever.search r reply outcome k = (vector_search reply).take k := by
    simp [HybridRetriever.search, hB]
  refine ⟨hmain, ?_⟩
  rintro rep rfl hsort hnn
  rw [hmain]
  constructor
  · apply List.Pairwise.sublist (List.take_sublist k _)
    unfold vector_search
    by_cases hne : rep.ids.isEmpty
    · simp [hne]
    · simp only [hne, Bool.false_eq_true, if_false]
      exact pairwise_build_vector_results _ _ _ _ hsort hnn
  · intro res hres
    have hmem : res ∈ vector_search (some rep) := (List.take_sublist k _).subset hres
    unfold vector_search at hmem
    by_cases hne : rep.ids.isEmpty
    · simp [hne] at hmem
    · simp only [hne, Bool.false_eq_true, if_false] at hmem
      obtain ⟨d, _, hv, hf⟩ := mem_build_vector_results _ _ _ _ hmem
      rw [hv, hf]

theorem C3_witness :
    bm25_search_results BM25Outcome.missing = [] ∧
    ([(0 : ℚ), 1].Pairwise (· ≤ ·)) ∧ (∀ d ∈ [(0 : ℚ), 1], 0 ≤ d) ∧
    (HybridRetriever.search (HybridRetriever.init (7/10) (3/10) 60)
        (some ⟨["c1", "c2"], ["t1", "t2"], [[], []], [0, 1]⟩) BM25Outcome.missing 1 =
      (vector_search (some ⟨["c1", "c2"], ["t1", "t2"], [[], []], [0, 1]⟩)).take 1) ∧
    (HybridRetriever.search (HybridRetriever.init (7/10) (3/10) 60)
        (some ⟨["c1", "c2"], ["t1", "t2"], [[], []], [0, 1]⟩)
        BM25Outcome.missing 1).Pairwise (fun a b => b.fused_score ≤ a.fused_score) :=
  ⟨rfl, by decide, by decide,
   (C3_bm25_empty_fallback (HybridRetriever.init (7/10) (3/10) 60)
     (some ⟨["c1", "c2"], ["t1", "t2"], [[], []], [0, 1]⟩) BM25Outcome.missing 1 rfl).1,
   ((C3_bm25_empty_fallback (HybridRetriever.init (7/10) (3/10) 60)
     (some ⟨["c1", "c2"], ["t1", "t2"], [[], []], [0, 1]⟩) BM25Outcome.missing 1 rfl).2
     ⟨["c1", "c2"], ["t1", "t2"], [[], []], [0, 1]⟩ rfl (by decide) (by decide)).1⟩

/-- C4: with a built index and a query that tokenizes to at least one token,
`BM25Service.search` returns only chunks whose score is strictly greater than
`score_threshold`, sorted by score descending with stable tie-break (the
ranked `(chunk index, score)` pairs are sorted with ties in original chunk
order, as the stable Python `sort` guarantees on the index-ascending input),
truncated to at most `k` results. -/
theorem C4_bm25_search_ranked
    (scoreFn : List (List String) → List String → List ℚ)
    (jieba : String → List String) (svc : BM25Service)
    (query : String) (k : Nat) (score_threshold : ℚ) (L : List BM25SearchResult)
    (hidx : svc.is_indexed = true)
    (htok : tokenize jieba query ≠ [])
    (hres : BM25Service.search scoreFn jieba svc query k score_threshold = Except.ok L) :
    (∀ res ∈ L, score_threshold < res.score) ∧
    L.Pairwise (fun a b => b.score ≤ a.score) ∧
    L.length ≤ k ∧
    (bm25RankedIndices (scoreFn svc.tokenized_corpus (tokenize jieba query))
        score_threshold).Pairwise
      (fun a b => b.2 < a.2 ∨ (a.2 = b.2 ∧ a.1 < b.1)) ∧
    L = ((bm25RankedIndices (scoreFn svc.tokenized_corpus (tokenize jieba query))
        score_threshold).take k).map (fun p =>
      let chunk := svc.chunks.getD p.1 ⟨"", "", []⟩
      ⟨chunk.chunk_id, chunk.text, p.2, chunk.metadata⟩) := by
  have hws : (query.data.all (fun c => c.isWhitespace)) = false := by
    by_cases h : (query.data.all (fun c => c.isWhitespace)) = true
    · exact absurd (by simp [tokenize, h]) htok
    · exact Bool.not_eq_true _ ▸ h
  have htokE : (tokenize jieba query).isEmpty = false := by
    cases h : tokenize jieba query with
    | nil => exact absurd h htok
    | cons a as => rfl
  rw [BM25Service.search, hidx] at hres
  simp only [Bool.not_true, Bool.false_eq_true, if_false, hws, htokE] at hres
  have hL : L = ((bm25RankedIndices
      (scoreFn svc.tokenized_corpus (tokenize jieba query)) score_threshold).take k).map
      (fun p =>
        let chunk := svc.chunks.getD p.1 ⟨"", "", []⟩
        ⟨chunk.chunk_id, chunk.text, p.2, chunk.metadata⟩) :=
    (Except.ok.inj hres).symm
  have hmemR : ∀ p ∈ bm25RankedIndices
      (scoreFn svc.tokenized_corpus (tokenize jieba query)) score_threshold,
      score_threshold < p.2 := by
    intro p hp
    have hp2 := (stableSort_perm _ _).subset hp
    have := (List.mem_filter.mp hp2).2
    exact of_decide_eq_true this
  have hsorted : (bm25RankedIndices
      (scoreFn svc.tokenized_corpus (tokenize jieba query)) score_threshold).Pairwise
      (fun a b => decide (b.2 ≤ a.2) = true) := by
    apply stableSort_pairwise
    · intro a b c hab hbc
      exact decide_eq_true (le_trans (of_decide_eq_true hbc) (of_decide_eq_true hab))
    · intro a b
      rcases le_total b.2 a.2 with h | h
      · exact Or.inl (decide_eq_true h)
      · exact Or.inr (decide_eq_true h)
  refine ⟨?_, ?_, ?_, ?_, hL⟩
  · intro res hres2
    rw [hL] at hres2
    obtain ⟨p, hp, hpe⟩ := List.mem_map.mp hres2
    have : score_threshold < p.2 := hmemR p ((List.take_sublist k _).subset hp)
    rw [← hpe]
    exact this
  · rw [hL]
    rw [List.pairwise_map]
    apply List.Pairwise.sublist (List.take_sublist k _)
    exact hsorted.imp (fun h => of_decide_eq_true h)
  · rw [hL, List.length_map, List.length_take]
    exact Nat.min_le_left _ _
  · apply stableSort_pairwise_lex
    exact (pairwise_enumFrom _ 0).filter _

/-- The query "hello" tokenizes to the single token "hello". -/
theorem tokenize_hello_example : tokenize jieba_stub "hello" = ["hello"] := by
  have hz : is_chinese_text "hello" = false :=
    is_chinese_text_eq_false_of_no_cjk "hello" (by decide)
  have hws : ("hello".data.all (fun c => c.isWhitespace)) = false := by decide
  simp only [tokenize, hws, hz, Bool.false_eq_true, if_false]
  decide

theorem C4_witness_search_eval :
    BM25Service.search score_stub jieba_stub
      ⟨true, [⟨"c1", "hello world", []⟩, ⟨"c2", "world peace", []⟩],
        [["hello", "world"], ["world", "peace"]]⟩ "hello" 5 0 =
      Except.ok [⟨"c1", "hello world", (1 : ℚ), []⟩] := by
  rw [BM25Service.search]
  have hws : ("hello".data.all (fun c => c.isWhitespace)) = false := by decide
  simp only [hws, Bool.not_true, Bool.false_eq_true, if_false, tokenize_hello_example]
  norm_num [score_stub, bm25RankedIndices, enumFrom, stableSort, insertSorted]
  decide

theorem C4_witness :
    ((⟨true, [⟨"c1", "hello world", []⟩, ⟨"c2", "world peace", []⟩],
        [["hello", "world"], ["world", "peace"]]⟩ : BM25Service).is_indexed = true) ∧
    tokenize jieba_stub "hello" ≠ [] ∧
    (∀ res ∈ [(⟨"c1", "hello world", (1 : ℚ), []⟩ : BM25SearchResult)],
      (0 : ℚ) < res.score) ∧
    ([(⟨"c1", "hello world", (1 : ℚ), []⟩ : BM25SearchResult)].Pairwise
      (fun a b => b.score ≤ a.score)) ∧
    ([(⟨"c1", "hello world", (1 : ℚ), []⟩ : BM25SearchResult)].length ≤ 5) :=
  have htok : tokenize jieba_stub "hello" ≠ [] := by
    simp [tokenize_hello_example]
  have H := C4_bm25_search_ranked score_stub jieba_stub
    ⟨true, [⟨"c1", "hello world", []⟩, ⟨"c2", "world peace", []⟩],
      [["hello", "world"], ["world", "peace"]]⟩ "hello" 5 0
    [⟨"c1", "hello world", (1 : ℚ), []⟩] rfl htok C4_witness_search_eval
  ⟨rfl, htok, H.1, H.2.1, H.2.2.1⟩

theorem alookup_eq_none_iff {β : Type} {key : String} {m : List (String × β)} :
    alookup key m = none ↔ key ∉ m.map Prod.fst := by
  induction m with
  | nil => simp [alookup]
  | cons p ps ih =>
    by_cases h : p.1 = key
    · simp [alookup, h]
    · simp only [alookup, h, Bool.false_eq_true, if_false, ih, List.map_cons,
        List.mem_cons, not_or]
      constructor
      · intro h2
        exact ⟨fun he => h he.symm, h2⟩
      · intro h2
        exact h2.2

theorem alookup_updAssoc {β : Type} (key c : String) (f : β → β)
    (m : List (String × β)) :
    alookup c (updAssoc key f m) =
      if c = key then (alookup c m).map f else alookup c m := by
  induction m with
  | nil => simp [alookup, updAssoc]
  | cons p ps ih =>
    by_cases h1 : p.1 = key <;> by_cases h3 : p.1 = c <;>
      by_cases h2 : c = key <;>
      simp_all [alookup, updAssoc]

theorem alookup_append {β : Type} (c : String) (m1 m2 : List (String × β)) :
    alookup c (m1 ++ m2) =
      match alookup c m1 with
      | some v => some v
      | none => alookup c m2 := by
  induction m1 with
  | nil => simp [alookup]
  | cons p ps ih => by_cases h : p.1 = c <;> simp [alookup, h, ih]

theorem keys_updAssoc {β : Type} (key : String) (f : β → β) (m : List (String × β)) :
    (updAssoc key f m).map Prod.fst = m.map Prod.fst := by
  induction m with
  | nil => rfl
  | cons p ps ih =>
    unfold updAssoc at ih ⊢
    by_cases h : p.1 = key
    · simp only [List.map_cons, if_pos h, ih]
    · simp only [List.map_cons, if_neg h, ih]

theorem rrf_contrib_eq_zero_of_not_mem (w K : ℚ) (c : String) :
    ∀ (xs : List String) (rank : ℚ), c ∉ xs → rrf_contrib w K c xs rank = 0
  | [], _, _ => rfl
  | x :: xs, rank, h => by
    have hx : ¬ x = c := fun he => h (he ▸ List.mem_cons_self x xs)
    simp only [rrf_contrib, hx, if_false]
    exact rrf_contrib_eq_zero_of_not_mem w K c xs (rank + 1)
      (fun hm => h (List.mem_cons_of_mem x hm))

theorem alookup_rrf_vector_pass_eq_none (wv K : ℚ) :
    ∀ (rs : List RetrievalResult) (rank : ℚ) (m : List (String × RetrievalResult))
      (c : String),
      alookup c (rrf_vector_pass wv K rs rank m) = none ↔
        (alookup c m = none ∧ c ∉ rs.map RetrievalResult.chunk_id) := by
  intro rs
  induction rs with
  | nil => intro rank m c; simp [rrf_vector_pass]
  | cons r rs ih =>
    intro rank m c
    simp only [rrf_vector_pass]
    rw [ih]
    by_cases hc : c = r.chunk_id
    · subst hc
      by_cases h : (alookup r.chunk_id m).isSome
      · rw [if_pos h, alookup_updAssoc, if_pos rfl]
        obtain ⟨v, hv⟩ := Option.isSome_iff_exists.mp h
        simp [hv]
      · rw [if_neg h, alookup_append]
        have hnone : alookup r.chunk_id m = none := Option.not_isSome_iff_eq_none.mp h
        simp [hnone, alookup]
    · have hmap : (c ∈ (r :: rs).map RetrievalResult.chunk_id) ↔
          c ∈ rs.map RetrievalResult.chunk_id := by
        simp [hc]
      by_cases h : (alookup r.chunk_id m).isSome
      · rw [if_pos h, alookup_updAssoc, if_neg hc, hmap]
      · rw [if_neg h, alookup_append]
        cases hm : alookup c m with
        | some v => simp [hmap]
        | none =>
          have hrc : ¬ r.chunk_id = c := fun he => hc he.symm
          simp only [alookup, hrc, Bool.false_eq_true, if_false, hmap]

theorem alookup_rrf_vector_pass_fused (wv K : ℚ) :
    ∀ (rs : List RetrievalResult) (rank : ℚ) (m : List (String × RetrievalResult))
      (c : String) (e : RetrievalResult),
      (rs.map RetrievalResult.chunk_id).Nodup →
      alookup c (rrf_vector_pass wv K rs rank m) = some e →
      e.fused_score =
        (match alookup c m with
         | some e0 => e0.fused_score
         | none => 0) + rrf_contrib wv K c (rs.map RetrievalResult.chunk_id) rank := by
  intro rs
  induction rs with
  | nil =>
    intro rank m c e _ he
    rw [rrf_vector_pass] at he
    rw [he]
    simp [rrf_contrib]
  | cons r rs ih =>
    intro rank m c e hnd he
    rw [List.map_cons] at hnd
    rcases List.nodup_cons.mp hnd with ⟨hhead, htail⟩
    simp only [rrf_vector_pass] at he
    by_cases hc : c = r.chunk_id
    · subst hc
      have hcontrib0 : rrf_contrib wv K r.chunk_id
          (rs.map RetrievalResult.chunk_id) (rank + 1) = 0 :=
        rrf_contrib_eq_zero_of_not_mem wv K r.chunk_id _ _ hhead
      have hstep := ih (rank + 1) _ r.chunk_id e htail he
      rw [hcontrib0] at hstep
      by_cases h : (alookup r.chunk_id m).isSome
      · rw [if_pos h] at hstep
        obtain ⟨v, hv⟩ := Option.isSome_iff_exists.mp h
        rw [alookup_updAssoc, if_pos rfl, hv] at hstep
        simp at hstep
        rw [hv]
        simp [rrf_contrib, hstep]
      · rw [if_neg h] at hstep
        have hnone : alookup r.chunk_id m = none := Option.not_isSome_iff_eq_none.mp h
        rw [alookup_append, hnone] at hstep
        simp [alookup] at hstep
        rw [hnone]
        simp [rrf_contrib, hstep]
    · have hcontrib : rrf_contrib wv K c ((r :: rs).map RetrievalResult.chunk_id) rank =
          rrf_contrib wv K c (rs.map RetrievalResult.chunk_id) (rank + 1) := by
        simp only [List.map_cons, rrf_contrib,
          if_neg (fun hrc : r.chunk_id = c => hc hrc.symm)]
      rw [hcontrib]
      have hstep := ih (rank + 1) _ c e htail he
      by_cases h : (alookup r.chunk_id m).isSome
      · rw [if_pos h, alookup_updAssoc, if_neg hc] at hstep
        exact hstep
      · rw [if_neg h, alookup_append] at hstep
        cases hm : alookup c m with
        | some v => rw [hm] at hstep; rw [hstep]
        | none =>
          rw [hm] at hstep
          simp only [alookup, if_neg (fun hrc : r.chunk_id = c => hc hrc.symm)] at hstep
          rw [hstep]

theorem rrf_vector_pass_good (wv K : ℚ) :
    ∀ (rs : List RetrievalResult) (rank : ℚ) (m : List (String × RetrievalResult)),
      (m.map Prod.fst).Nodup → (∀ p ∈ m, p.2.chunk_id = p.1) →
      ((rrf_vector_pass wv K rs rank m).map Prod.fst).Nodup ∧
      (∀ p ∈ rrf_vector_pass wv K rs rank m, p.2.chunk_id = p.1) := by
  intro rs
  induction rs with
  | nil => intro rank m hnd hck; exact ⟨hnd, hck⟩
  | cons r rs ih =>
    intro rank m hnd hck
    simp only [rrf_vector_pass]
    by_cases h : (alookup r.chunk_id m).isSome
    · rw [if_pos h]
      apply ih
      · rw [keys_updAssoc]; exact hnd
      · intro p hp
        obtain ⟨q, hq, hqe⟩ := List.mem_map.mp hp
        by_cases hqk : q.1 = r.chunk_id
        · rw [← hqe]; simp only [if_pos hqk]; exact hck q hq
        · rw [← hqe]; simp only [if_neg hqk]; exact hck q hq
    · rw [if_neg h]
      apply ih
      · have hnotin : r.chunk_id ∉ m.map Prod.fst :=
          alookup_eq_none_iff.mp (Option.not_isSome_iff_eq_none.mp h)
        simp only [List.map_append, List.map_cons, List.map_nil]
        rw [List.nodup_append]
        exact ⟨hnd, List.nodup_singleton _,
          by simpa [List.disjoint_singleton] using hnotin⟩
      · intro p hp
        rcases List.mem_append.mp hp with hp | hp
        · exact hck p hp
        · rcases List.mem_singleton.mp hp with rfl
          rfl

theorem alookup_of_mem_values :
    ∀ (m : List (String × RetrievalResult)), (m.map Prod.fst).Nodup →
      (∀ p ∈ m, p.2.chunk_id = p.1) →
      ∀ r ∈ m.map Prod.snd, alookup r.chunk_id m = some r := by
  intro m
  induction m with
  | nil => intro _ _ r hr; simp at hr
  | cons p ps ih =>
    intro hnd hck r hr
    rw [List.map_cons] at hnd
    rcases List.nodup_cons.mp hnd with ⟨hhead, htail⟩
    rcases List.mem_cons.mp hr with h1 | h1
    · have hpid : p.1 = r.chunk_id := by
        rw [h1]
        exact (hck p (List.mem_cons_self p ps)).symm
      simp only [alookup, if_pos hpid]
      rw [h1]
    · have hrec := ih htail (fun q hq => hck q (List.mem_cons_of_mem p hq)) r h1
      have hin : r.chunk_id ∈ ps.map Prod.fst := by
        by_contra hno
        rw [alookup_eq_none_iff.mpr hno] at hrec
        exact Option.noConfusion hrec
      have hne : ¬ p.1 = r.chunk_id := fun he => hhead (he.symm ▸ hin)
      simp only [alookup, if_neg hne]
      exact hrec

theorem alookup_rrf_bm25_pass_eq_none (wb K : ℚ) :
    ∀ (rs : List RetrievalResult) (rank : ℚ) (m : List (String × RetrievalResult))
      (c : String),
      alookup c (rrf_bm25_pass wb K rs rank m) = none ↔
        (alookup c m = none ∧ c ∉ rs.map RetrievalResult.chunk_id) := by
  intro rs
  induction rs with
  | nil => intro rank m c; simp [rrf_bm25_pass]
  | cons r rs ih =>
    intro rank m c
    simp only [rrf_bm25_pass]
    rw [ih]
    by_cases hc : c = r.chunk_id
    · subst hc
      by_cases h : (alookup r.chunk_id m).isSome
      · rw [if_pos h, alookup_updAssoc, if_pos rfl]
        obtain ⟨v, hv⟩ := Option.isSome_iff_exists.mp h
        simp [hv]
      · rw [if_neg h, alookup_append]
        have hnone : alookup r.chunk_id m = none := Option.not_isSome_iff_eq_none.mp h
        simp [hnone, alookup]
    · have hmap : (c ∈ (r :: rs).map RetrievalResult.chunk_id) ↔
          c ∈ rs.map RetrievalResult.chunk_id := by
        simp [hc]
      by_cases h : (alookup r.chunk_id m).isSome
      · rw [if_pos h, alookup_updAssoc, if_neg hc, hmap]
      · rw [if_neg h, alookup_append]
        cases hm : alookup c m with
        | some v => simp [hmap]
        | none =>
          have hrc : ¬ r.chunk_id = c := fun he => hc he.symm
          simp only [alookup, hrc, Bool.false_eq_true, if_false, hmap]

theorem alookup_rrf_bm25_pass_fused (wb K : ℚ) :
    ∀ (rs : List RetrievalResult) (rank : ℚ) (m : List (String × RetrievalResult))
      (c : String) (e : RetrievalResult),
      (rs.map RetrievalResult.chunk_id).Nodup →
      alookup c (rrf_bm25_pass wb K rs rank m) = some e →
      e.fused_score =
        (match alookup c m with
         | some e0 => e0.fused_score
         | none => 0) + rrf_contrib wb K c (rs.map RetrievalResult.chunk_id) rank := by
  intro rs
  induction rs with
  | nil =>
    intro rank m c e _ he
    rw [rrf_bm25_pass] at he
    rw [he]
    simp [rrf_contrib]
  | cons r rs ih =>
    intro rank m c e hnd he
    rw [List.map_cons] at hnd
    rcases List.nodup_cons.mp hnd with ⟨hhead, htail⟩
    simp only [rrf_bm25_pass] at he
    by_cases hc : c = r.chunk_id
    · subst hc
      have hcontrib0 : rrf_contrib wb K r.chunk_id
          (rs.map RetrievalResult.chunk_id) (rank + 1) = 0 :=
        rrf_contrib_eq_zero_of_not_mem wb K r.chunk_id _ _ hhead
      have hstep := ih (rank + 1) _ r.chunk_id e htail he
      rw [hcontrib0] at hstep
      by_cases h : (alookup r.chunk_id m).isSome
      · rw [if_pos h] at hstep
        obtain ⟨v, hv⟩ := Option.isSome_iff_exists.mp h
        rw [alookup_updAssoc, if_pos rfl, hv] at hstep
        simp at hstep
        rw [hv]
        simp [rrf_contrib, hstep]
      · rw [if_neg h] at hstep
        have hnone : alookup r.chunk_id m = none := Option.not_isSome_iff_eq_none.mp h
        rw [alookup_append, hnone] at hstep
        simp [alookup] at hstep
        rw [hnone]
        simp [rrf_contrib, hstep]
    · have hcontrib : rrf_contrib wb K c ((r :: rs).map RetrievalResult.chunk_id) rank =
          rrf_contrib wb K c (rs.map RetrievalResult.chunk_id) (rank + 1) := by
        simp only [List.map_cons, rrf_contrib,
          if_neg (fun hrc : r.chunk_id = c => hc hrc.symm)]
      rw [hcontrib]
      have hstep := ih (rank + 1) _ c e htail he
      by_cases h : (alookup r.chunk_id m).isSome
      · rw [if_pos h, alookup_updAssoc, if_neg hc] at hstep
        exact hstep
      · rw [if_neg h, alookup_append] at hstep
        cases hm : alookup c m with
        | some v => rw [hm] at hstep; rw [hstep]
        | none =>
          rw [hm] at hstep
          simp only [alookup, if_neg (fun hrc : r.chunk_id = c => hc hrc.symm)] at hstep
          rw [hstep]

theorem rrf_bm25_pass_good (wb K : ℚ) :
    ∀ (rs : List RetrievalResult) (rank : ℚ) (m : List (String × RetrievalResult)),
      (m.map Prod.fst).Nodup → (∀ p ∈ m, p.2.chunk_id = p.1) →
      ((rrf_bm25_pass wb K rs rank m).map Prod.fst).Nodup ∧
      (∀ p ∈ rrf_bm25_pass wb K rs rank m, p.2.chunk_id = p.1) := by
  intro rs
  induction rs with
  | nil => intro rank m hnd hck; exact ⟨hnd, hck⟩
  | cons r rs ih =>
    intro rank m hnd hck
    simp only [rrf_bm25_pass]
    by_cases h : (alookup r.chunk_id m).isSome
    · rw [if_pos h]
      apply ih
      · rw [keys_updAssoc]; exact hnd
      · intro p hp
        obtain ⟨q, hq, hqe⟩ := List.mem_map.mp hp
        by_cases hqk : q.1 = r.chunk_id
        · rw [← hqe]; simp only [if_pos hqk]; exact hck q hq
        · rw [← hqe]; simp only [if_neg hqk]; exact hck q hq
    · rw [if_neg h]
      apply ih
      · have hnotin : r.chunk_id ∉ m.map Prod.fst :=
          alookup_eq_none_iff.mp (Option.not_isSome_iff_eq_none.mp h)
        simp only [List.map_append, List.map_cons, List.map_nil]
        rw [List.nodup_append]
        exact ⟨hnd, List.nodup_singleton _,
          by simpa [List.disjoint_singleton] using hnotin⟩
      · intro p hp
        rcases List.mem_append.mp hp with hp | hp
        · exact hck p hp
        · rcases List.mem_singleton.mp hp with rfl
          rfl

/-- C2: for non-empty vector results `V` and BM25 results `B` (with distinct
chunk ids within each list, as the stores return), the RRF fusion output has
exactly the chunk-id set `ids(V) ∪ ids(B)`, and the `fused_score` of every fused
chunk is the sum of `vector_weight * (1 / (rrf_k + rank_v))` when the
chunk occurs in `V` at 1-based rank `rank_v` and
`bm25_weight * (1 / (rrf_k + rank_b))` when it occurs in `B` at 1-based rank
`rank_b` (`rrf_contrib` is exactly that per-list term, `0` when absent), a
chunk present in only one list receiving only that term. -/
theorem C2_rrf_fusion_union_formula (wv wb K : ℚ) (V B : List RetrievalResult)
    (hV : V ≠ []) (hB : B ≠ [])
    (hVn : (V.map RetrievalResult.chunk_id).Nodup)
    (hBn : (B.map RetrievalResult.chunk_id).Nodup) :
    (∀ c : String, c ∈ (rrf_fusion wv wb K V B).map RetrievalResult.chunk_id ↔
      (c ∈ V.map RetrievalResult.chunk_id ∨ c ∈ B.map RetrievalResult.chunk_id)) ∧
    (∀ r ∈ rrf_fusion wv wb K V B,
      r.fused_score =
        rrf_contrib wv K r.chunk_id (V.map RetrievalResult.chunk_id) 1 +
        rrf_contrib wb K r.chunk_id (B.map RetrievalResult.chunk_id) 1) := by
  have hgood1 := rrf_vector_pass_good wv K V 1 [] (by simp) (by simp)
  have hgood2 := rrf_bm25_pass_good wb K B 1 _ hgood1.1 hgood1.2
  constructor
  · intro c
    unfold rrf_fusion
    rw [((stableSort_perm _ _).map RetrievalResult.chunk_id).mem_iff, List.map_map]
    have hkeys : (rrf_bm25_pass wb K B 1 (rrf_vector_pass wv K V 1 [])).map
        (RetrievalResult.chunk_id ∘ Prod.snd) =
        (rrf_bm25_pass wb K B 1 (rrf_vector_pass wv K V 1 [])).map Prod.fst :=
      List.map_congr_left (fun p hp => hgood2.2 p hp)
    rw [hkeys]
    have hnone : alookup c (rrf_bm25_pass wb K B 1 (rrf_vector_pass wv K V 1 [])) =
        none ↔
        (c ∉ V.map RetrievalResult.chunk_id ∧ c ∉ B.map RetrievalResult.chunk_id) := by
      rw [alookup_rrf_bm25_pass_eq_none, alookup_rrf_vector_pass_eq_none]
      simp only [alookup]
      tauto
    constructor
    · intro hc
      by_contra hcon
      push_neg at hcon
      exact (alookup_eq_none_iff.mp (hnone.mpr hcon)) hc
    · intro hc
      by_contra hcon
      rcases hnone.mp (alookup_eq_none_iff.mpr hcon) with ⟨h1, h2⟩
      rcases hc with hc | hc
      · exact h1 hc
      · exact h2 hc
  · intro r hr
    have hrm : r ∈ (rrf_bm25_pass wb K B 1 (rrf_vector_pass wv K V 1 [])).map Prod.snd :=
      mem_stableSort.mp hr
    have hlook := alookup_of_mem_values _ hgood2.1 hgood2.2 r hrm
    have hfB := alookup_rrf_bm25_pass_fused wb K B 1 _ r.chunk_id r hBn hlook
    cases hm : alookup r.chunk_id (rrf_vector_pass wv K V 1 []) with
    | some e1 =>
      have hfV := alookup_rrf_vector_pass_fused wv K V 1 [] r.chunk_id e1 hVn hm
      have hfV' : e1.fused_score =
          rrf_contrib wv K r.chunk_id (V.map RetrievalResult.chunk_id) 1 := by
        simpa [alookup] using hfV
      rw [hm] at hfB
      simp only [] at hfB
      rw [hfV'] at hfB
      exact hfB
    | none =>
      have hcV : r.chunk_id ∉ V.map RetrievalResult.chunk_id :=
        ((alookup_rrf_vector_pass_eq_none wv K V 1 [] r.chunk_id).mp hm).2
      rw [hm] at hfB
      rw [rrf_contrib_eq_zero_of_not_mem wv K r.chunk_id _ 1 hcV, zero_add]
      simpa using hfB

theorem C2_witness :
    (([⟨"c1", "t1", [], none, none, 0⟩, ⟨"c2", "t2", [], none, none, 0⟩] :
        List RetrievalResult) ≠ [] ∧
     ([⟨"c2", "t2", [], none, some 0, 0⟩] : List RetrievalResult) ≠ [] ∧
     (([⟨"c1", "t1", [], none, none, 0⟩, ⟨"c2", "t2", [], none, none, 0⟩] :
        List RetrievalResult).map RetrievalResult.chunk_id).Nodup ∧
     (([⟨"c2", "t2", [], none, some 0, 0⟩] :
        List RetrievalResult).map RetrievalResult.chunk_id).Nodup) ∧
    (∀ c : String,
      c ∈ (rrf_fusion (7/10) (3/10) 60
          [⟨"c1", "t1", [], none, none, 0⟩, ⟨"c2", "t2", [], none, none, 0⟩]
          [⟨"c2", "t2", [], none, some 0, 0⟩]).map RetrievalResult.chunk_id ↔
        (c ∈ ([⟨"c1", "t1", [], none, none, 0⟩, ⟨"c2", "t2", [], none, none, 0⟩] :
            List RetrievalResult).map RetrievalResult.chunk_id ∨
         c ∈ ([⟨"c2", "t2", [], none, some 0, 0⟩] :
            List RetrievalResult).map RetrievalResult.chunk_id)) ∧
    (∀ r ∈ rrf_fusion (7/10) (3/10) 60
        [⟨"c1", "t1", [], none, none, 0⟩, ⟨"c2", "t2", [], none, none, 0⟩]
        [⟨"c2", "t2", [], none, some 0, 0⟩],
      r.fused_score =
        rrf_contrib (7/10) 60 r.chunk_id
          (([⟨"c1", "t1", [], none, none, 0⟩, ⟨"c2", "t2", [], none, none, 0⟩] :
            List RetrievalResult).map RetrievalResult.chunk_id) 1 +
        rrf_contrib (3/10) 60 r.chunk_id
          (([⟨"c2", "t2", [], none, some 0, 0⟩] :
            List RetrievalResult).map RetrievalResult.chunk_id) 1) :=
  ⟨⟨by decide, by decide, by decide, by decide⟩,
   (C2_rrf_fusion_union_formula (7/10) (3/10) 60
     [⟨"c1", "t1", [], none, none, 0⟩, ⟨"c2", "t2", [], none, none, 0⟩]
     [⟨"c2", "t2", [], none, some 0, 0⟩]
     (by decide) (by decide) (by decide) (by decide)).1,
   (C2_rrf_fusion_union_formula (7/10) (3/10) 60
     [⟨"c1", "t1", [], none, none, 0⟩, ⟨"c2", "t2", [], none, none, 0⟩]
     [⟨"c2", "t2", [], none, some 0, 0⟩]
     (by decide) (by decide) (by decide) (by decide)).2⟩
